import Mathlib

/-!
Verification of the DebtMate lending-ledger model.

Shallow embedding of `src/app/page.tsx` (component `PersonalMoneyTracker` and its
helper forms) and `src/unnamed/part_000` (`PartialPaymentForm`).

Modelling conventions, each noted at the definition it concerns:
* JS strings that are only displayed, trimmed, lower-cased or compared are
  modelled as `List Char`.
* Monetary values are whole-rupee integers (the source domain uses whole-rupee
  amounts), modelled as `Int` (JS numbers; only `+`, `-` and comparisons occur).
* `Date` values are their timestamps, modelled as `Int`; the source only ever
  compares them (`>`) or stores them.
* Record and payment ids come from `Date.now().toString()`.  `Int.toString` is
  injective and ids are only compared for equality, so ids are modelled as the
  `Int` timestamp itself.  Each mutation handler takes the current clock value
  `now` as an explicit parameter (the source reads `Date.now()` / `new Date()`
  at the start of the handler).
* The React `setRecords` state update is modelled by returning the new list of
  records; `toast` calls are modelled as an optional `Toast` value returned
  alongside the new store, since they are the only user-visible signal channel
  the handlers have.
-/

namespace DebtMate

/-- JS strings are modelled as lists of characters. -/
abbrev Str := List Char

/-- Record ids (`Date.now().toString()`): modelled as the timestamp itself,
see the conventions above. -/
abbrev Id := Int

/-- The `status` field: `"pending" | "paid"`. -/
inductive Status
  | pending
  | paid
  deriving DecidableEq

/-- The `PaymentEntry` interface of `page.tsx`. -/
structure PaymentEntry where
  id : Id
  amount : Int
  date : Int
  notes : Option Str
  deriving DecidableEq

/-- The `LendingRecord` interface of `page.tsx`.  `notes` is always a string
after creation (`recordData.notes || ""`), so it is modelled as `Str`. -/
structure LendingRecord where
  id : Id
  borrowerName : Str
  amount : Int
  reason : Str
  lentDate : Int
  status : Status
  notes : Str
  paidAmount : Int
  paymentHistory : List PaymentEntry
  createdAt : Int
  deriving DecidableEq

/-- JS whitespace, restricted to the ASCII whitespace characters. -/
def isSpace (c : Char) : Bool :=
  c = ' ' || c = '\t' || c = '\n' || c = '\r'

/-- JS `String.prototype.trim`: drop whitespace from both ends. -/
def trim (s : Str) : Str :=
  ((s.dropWhile isSpace).reverse.dropWhile isSpace).reverse

/-- JS `String.prototype.toLowerCase` (ASCII letters). -/
def toLower (s : Str) : Str :=
  s.map Char.toLower

/-- JS `s.replace(/\s+/g, " ")`: collapse every maximal whitespace run to a
single space (each run emits its space at the run's last character, which
yields the same string). -/
def collapseWs : Str → Str
  | [] => []
  | [c] => if isSpace c then [' '] else [c]
  | c :: d :: rest =>
      if isSpace c then
        if isSpace d then collapseWs (d :: rest)
        else ' ' :: collapseWs (d :: rest)
      else c :: collapseWs (d :: rest)

/-- The `normalizeName` helper of `page.tsx`:
`name.trim().toLowerCase().replace(/\s+/g, " ")`. -/
def normalizeName (name : Str) : Str :=
  collapseWs (toLower (trim name))

/-- The `totalLent` computation of `page.tsx`:
`records.reduce((sum, record) => sum + record.amount, 0)`. -/
def totalLent (records : List LendingRecord) : Int :=
  records.foldl (fun sum record => sum + record.amount) 0

/-- The `totalPending` computation of `page.tsx`: filter to `pending` records,
then `reduce((sum, record) => sum + (record.amount - record.paidAmount), 0)`. -/
def totalPending (records : List LendingRecord) : Int :=
  (records.filter (fun record => decide (record.status = Status.pending))).foldl
    (fun sum record => sum + (record.amount - record.paidAmount)) 0

/-- The `totalPaid` computation of `page.tsx` (displayed as "Returned"):
filter to `paid` records, then `reduce((sum, record) => sum + record.amount, 0)`. -/
def totalPaid (records : List LendingRecord) : Int :=
  (records.filter (fun record => decide (record.status = Status.paid))).foldl
    (fun sum record => sum + record.amount) 0

/-- The store update of `markAsPaid` in `page.tsx`:
`records.map(record => record.id === recordId ? { ...record, status: "paid" } : record)`. -/
def markAsPaid (recordId : Id) (records : List LendingRecord) : List LendingRecord :=
  records.map (fun record =>
    if record.id = recordId then { record with status := Status.paid } else record)

/-- The store update of `deleteRecord` in `page.tsx`:
`records.filter(record => record.id !== recordId)`. -/
def deleteRecord (recordId : Id) (records : List LendingRecord) : List LendingRecord :=
  records.filter (fun record => decide (record.id ≠ recordId))

/-- The store update of `handlePartialPayment` in `page.tsx`.  The source's
local `newPaidAmount = record.paidAmount + paymentAmount` is inlined; the new
`PaymentEntry` gets `id = Date.now().toString()` and `date = new Date()`, both
the handler's clock value `now`. -/
def handlePartialPayment (recordId : Id) (paymentAmount : Int) (paymentNotes : Option Str)
    (now : Int) (records : List LendingRecord) : List LendingRecord :=
  records.map (fun record =>
    if record.id = recordId then
      { record with
          paidAmount := record.paidAmount + paymentAmount
          paymentHistory := record.paymentHistory ++
            [{ id := now, amount := paymentAmount, date := now, notes := paymentNotes }]
          status := if record.paidAmount + paymentAmount ≥ record.amount
            then Status.paid else Status.pending }
    else record)

/-- The `toast` messages the mutation handlers can show.  None of them is an
error: the source has no error type and no "not found" message at all. -/
inductive Toast
  | recordAdded
  | paymentReceived
  | recordDeleted
  | fullyPaid
  | partPaymentReceived
  deriving DecidableEq

/-- The whole `markAsPaid` handler: store update plus its toast, which is only
shown when `records.find(r => r.id === recordId)` succeeds. -/
def markAsPaidRun (recordId : Id) (records : List LendingRecord) :
    List LendingRecord × Option Toast :=
  (markAsPaid recordId records,
   match records.find? (fun record => decide (record.id = recordId)) with
   | some _ => some Toast.paymentReceived
   | none => none)

/-- The whole `deleteRecord` handler: the "Record Deleted" toast is shown
unconditionally, whether or not the id was present. -/
def deleteRecordRun (recordId : Id) (records : List LendingRecord) :
    List LendingRecord × Option Toast :=
  (deleteRecord recordId records, some Toast.recordDeleted)

/-- The whole `handlePartialPayment` handler: store update plus its toast.  The
toast branch re-reads the OLD `records` (a closure over the pre-update state):
`remainingAmount = record.amount - (record.paidAmount + paymentAmount)` decides
between the "Fully Paid" and the partial-payment message; nothing is shown when
the id is absent. -/
def handlePartialPaymentRun (recordId : Id) (paymentAmount : Int) (paymentNotes : Option Str)
    (now : Int) (records : List LendingRecord) : List LendingRecord × Option Toast :=
  (handlePartialPayment recordId paymentAmount paymentNotes now records,
   match records.find? (fun record => decide (record.id = recordId)) with
   | some record =>
       some (if record.amount - (record.paidAmount + paymentAmount) ≤ 0
         then Toast.fullyPaid else Toast.partPaymentReceived)
   | none => none)

/-- The destructive toasts of `PartialPaymentForm.handleSubmit`
(`src/unnamed/part_000`): "Invalid Amount" and "Amount Too High". -/
inductive PayError
  | invalidAmount
  | amountTooHigh
  deriving DecidableEq

/-- The `PartialPaymentForm.handleSubmit` flow (`src/unnamed/part_000`)
followed by `handlePartialPayment`: reject `!amount || amount <= 0`, then
reject `amount > maxPayment` where `maxPayment = record.amount -
record.paidAmount` of the record the form was opened for; otherwise submit.
An early return leaves the store untouched, so the pre-state is returned with
the error. -/
def submitPayment (record : LendingRecord) (amount : Int) (notes : Option Str)
    (now : Int) (records : List LendingRecord) : List LendingRecord × Option PayError :=
  if amount ≤ 0 then (records, some PayError.invalidAmount)
  else if record.amount - record.paidAmount < amount then (records, some PayError.amountTooHigh)
  else (handlePartialPayment record.id amount notes now records, none)

/-- The `Partial<LendingRecord>` data collected by `AddRecordForm`.  The form
keeps `amount` as either a number or the empty string; the empty string is
modelled as `none`. -/
structure AddData where
  borrowerName : Option Str
  amount : Option Int
  reason : Option Str
  lentDate : Option Int
  notes : Option Str
  deriving DecidableEq

/-- The destructive toast of `AddRecordForm.handleSubmit`: "Missing Information". -/
inductive AddError
  | missingInformation
  deriving DecidableEq

/-- The new record built by `handleAddRecord` in `page.tsx`.  JS `x || d`
defaulting on these fields agrees with `Option.getD` (for `borrowerName` the
source trims first and then defaults, which yields the same string). -/
def mkNewRecord (recordData : AddData) (now : Int) : LendingRecord :=
  { id := now
    borrowerName := trim (recordData.borrowerName.getD [])
    amount := recordData.amount.getD 0
    reason := recordData.reason.getD []
    lentDate := recordData.lentDate.getD now
    status := Status.pending
    notes := recordData.notes.getD []
    paidAmount := 0
    paymentHistory := []
    createdAt := now }

/-- The store update of `handleAddRecord`: `setRecords([newRecord, ...records])`. -/
def handleAddRecord (recordData : AddData) (now : Int) (records : List LendingRecord) :
    List LendingRecord :=
  mkNewRecord recordData now :: records

/-- JS falsiness of the form's string fields: `undefined` or `""`. -/
def strFalsy (s : Option Str) : Bool :=
  decide (s.getD [] = [])

/-- JS falsiness of the form's `amount` field: empty (`""`) or `0`. -/
def amountFalsy (a : Option Int) : Bool :=
  decide (a.getD 0 = 0)

/-- The `AddRecordForm.handleSubmit` flow followed by `handleAddRecord`:
`if (!formData.borrowerName || !formData.amount || !formData.reason)` shows the
"Missing Information" toast and returns without touching the store. -/
def addRecord (recordData : AddData) (now : Int) (records : List LendingRecord) :
    List LendingRecord × Option AddError :=
  if strFalsy recordData.borrowerName || amountFalsy recordData.amount
      || strFalsy recordData.reason then
    (records, some AddError.missingInformation)
  else (handleAddRecord recordData now records, none)

/-- One payment applied through the UI: the payment dialog is opened for a
record found in the store (`selectedRecordForPayment`), the form validates
against that record and then calls `handlePartialPayment` with its id.  With an
absent id nothing happens. -/
def applyPaymentOp (recordId : Id) (amount : Int) (notes : Option Str) (now : Int)
    (records : List LendingRecord) : List LendingRecord × Option PayError :=
  match records.find? (fun record => decide (record.id = recordId)) with
  | some record => submitPayment record amount notes now records
  | none => (records, none)

/-- One store operation of the kind claim C3 quantifies over: an Add or an
ApplyPayment, each stamped with its clock value. -/
inductive Op
  | add (recordData : AddData) (now : Int)
  | pay (recordId : Id) (amount : Int) (notes : Option Str) (now : Int)

/-- Apply one operation to the store. -/
def applyOp (records : List LendingRecord) : Op → List LendingRecord
  | Op.add recordData now => (addRecord recordData now records).1
  | Op.pay recordId amount notes now => (applyPaymentOp recordId amount notes now records).1

/-- Run a sequence of operations from the empty store. -/
def runOps (ops : List Op) : List LendingRecord :=
  ops.foldl applyOp []

/-- The accounting invariant of claim C3: `paidAmount` equals the sum of the
payment-history amounts. -/
def historyConsistent (record : LendingRecord) : Prop :=
  record.paidAmount = (record.paymentHistory.map PaymentEntry.amount).sum

instance (record : LendingRecord) : Decidable (historyConsistent record) := by
  unfold historyConsistent; infer_instance

section Helpers

/-- Mapping an id-targeted update over a list that does not contain the id
changes nothing. -/
theorem map_update_id_not_mem (f : LendingRecord → LendingRecord) (rid : Id) :
    ∀ l : List LendingRecord, rid ∉ l.map LendingRecord.id →
      l.map (fun x => if x.id = rid then f x else x) = l := by
  intro l
  induction l with
  | nil => intro _; rfl
  | cons x xs ih =>
    intro h
    simp only [List.map_cons, List.mem_cons] at h
    push_neg at h
    obtain ⟨h1, h2⟩ := h
    simp only [List.map_cons]
    rw [if_neg (fun hx => h1 hx.symm), ih h2]

/-- Mapping an id-targeted update over a store containing exactly one record
with that id updates that record and nothing else. -/
theorem map_update_append (f : LendingRecord → LendingRecord) (rid : Id)
    (l1 l2 : List LendingRecord) (r : LendingRecord) (hr : r.id = rid)
    (h : rid ∉ (l1 ++ l2).map LendingRecord.id) :
    (l1 ++ r :: l2).map (fun x => if x.id = rid then f x else x) = l1 ++ f r :: l2 := by
  simp only [List.map_append, List.mem_append] at h
  push_neg at h
  obtain ⟨h1, h2⟩ := h
  rw [List.map_append, List.map_cons, if_pos hr,
    map_update_id_not_mem f rid l1 h1, map_update_id_not_mem f rid l2 h2]

/-- Filtering away the targeted id commutes with an id-preserving targeted
update. -/
theorem filter_ne_map_update (f : LendingRecord → LendingRecord) (rid : Id)
    (hf : ∀ x, (f x).id = x.id) :
    ∀ l : List LendingRecord,
      (l.map (fun x => if x.id = rid then f x else x)).filter
          (fun x => decide (x.id ≠ rid)) =
        l.filter (fun x => decide (x.id ≠ rid)) := by
  intro l
  induction l with
  | nil => rfl
  | cons x xs ih =>
    simp only [List.map_cons, List.filter_cons]
    by_cases hx : x.id = rid
    · rw [if_pos hx]
      have h1 : decide ((f x).id ≠ rid) = false := by simp [hf x, hx]
      have h2 : decide (x.id ≠ rid) = false := by simp [hx]
      rw [h1, h2, if_neg (by simp), if_neg (by simp)]
      exact ih
    · rw [if_neg hx]
      have h2 : decide (x.id ≠ rid) = true := by simp [hx]
      rw [h2, if_pos rfl, if_pos rfl, ih]

/-- Filtering twice with the same predicate is the same as filtering once. -/
theorem filter_idem (p : LendingRecord → Bool) :
    ∀ l : List LendingRecord, (l.filter p).filter p = l.filter p := by
  intro l
  induction l with
  | nil => rfl
  | cons x xs ih =>
    by_cases hx : p x
    · simp [List.filter_cons, hx, ih]
    · simp [List.filter_cons, hx, ih]

/-- A left fold that adds `g x` at each step computes `init` plus the sum. -/
theorem foldl_add_eq (g : LendingRecord → Int) :
    ∀ (l : List LendingRecord) (init : Int),
      l.foldl (fun s r => s + g r) init = init + (l.map g).sum := by
  intro l
  induction l with
  | nil => intro init; simp
  | cons x xs ih =>
    intro init
    simp only [List.foldl_cons, List.map_cons, List.sum_cons, ih]
    ring

end Helpers

/-- C2: for every record collection, `totalLent` is the sum of `amount` over
all records, `totalPending` the sum of `amount - paidAmount` over the pending
records, and `totalPaid` (the "Returned" figure) the sum of the full original
`amount` — not `paidAmount` — over the paid records. -/
theorem globalTotals_correct (records : List LendingRecord) :
    totalLent records = (records.map LendingRecord.amount).sum
    ∧ totalPending records =
        ((records.filter (fun r => decide (r.status = Status.pending))).map
          (fun r => r.amount - r.paidAmount)).sum
    ∧ totalPaid records =
        ((records.filter (fun r => decide (r.status = Status.paid))).map
          LendingRecord.amount).sum := by
  refine ⟨?_, ?_, ?_⟩
  · rw [totalLent, foldl_add_eq LendingRecord.amount records 0, zero_add]
  · rw [totalPending, foldl_add_eq (fun r => r.amount - r.paidAmount) _ 0, zero_add]
  · rw [totalPaid, foldl_add_eq LendingRecord.amount _ 0, zero_add]

/-- C10: each id-targeted mutation — applying a payment, marking fully paid,
deleting — leaves every record whose id differs from the target unchanged
field for field and preserves their relative order: the store restricted to
the other ids is exactly the same list before and after. -/
theorem targeted_mutations_frame (records : List LendingRecord) (rid : Id)
    (paymentAmount : Int) (paymentNotes : Option Str) (now : Int) :
    (handlePartialPayment rid paymentAmount paymentNotes now records).filter
        (fun x => decide (x.id ≠ rid)) =
      records.filter (fun x => decide (x.id ≠ rid))
    ∧ (markAsPaid rid records).filter (fun x => decide (x.id ≠ rid)) =
      records.filter (fun x => decide (x.id ≠ rid))
    ∧ (deleteRecord rid records).filter (fun x => decide (x.id ≠ rid)) =
      records.filter (fun x => decide (x.id ≠ rid)) := by
  refine ⟨?_, ?_, ?_⟩
  · simp only [handlePartialPayment]
    exact filter_ne_map_update
      (fun record =>
        { record with
            paidAmount := record.paidAmount + paymentAmount
            paymentHistory := record.paymentHistory ++
              [{ id := now, amount := paymentAmount, date := now, notes := paymentNotes }]
            status := if record.paidAmount + paymentAmount ≥ record.amount
              then Status.paid else Status.pending })
      rid (fun x => rfl) records
  · simp only [markAsPaid]
    exact filter_ne_map_update (fun record => { record with status := Status.paid })
      rid (fun x => rfl) records
  · exact filter_idem _ records

/-- C1: applying a valid payment (`0 < amt ≤ remaining balance`) to a record
present in the store appends exactly one `PaymentEntry` carrying that amount
and the handler's timestamp to the record's history, increases `paidAmount` by
the amount, and sets `status` to `paid` exactly when the new `paidAmount`
reaches `amount`; paying exactly the remaining balance yields status `paid`
and remaining balance `0`. -/
theorem applyPayment_success (l1 l2 : List LendingRecord) (r : LendingRecord)
    (amt : Int) (notes : Option Str) (now : Int)
    (hfresh : r.id ∉ (l1 ++ l2).map LendingRecord.id)
    (hpos : 0 < amt) (hle : amt ≤ r.amount - r.paidAmount) :
    submitPayment r amt notes now (l1 ++ r :: l2) =
      (l1 ++
        ({ r with
            paidAmount := r.paidAmount + amt
            paymentHistory := r.paymentHistory ++
              [{ id := now, amount := amt, date := now, notes := notes }]
            status := if r.paidAmount + amt ≥ r.amount then Status.paid
              else Status.pending } : LendingRecord) :: l2, none)
    ∧ (amt = r.amount - r.paidAmount →
        (if r.paidAmount + amt ≥ r.amount then Status.paid else Status.pending) = Status.paid
        ∧ r.amount - (r.paidAmount + amt) = 0)
    ∧ (amt < r.amount - r.paidAmount →
        (if r.paidAmount + amt ≥ r.amount then Status.paid else Status.pending) =
          Status.pending) := by
  refine ⟨?_, fun heq => ⟨by rw [if_pos (by omega)], by omega⟩,
    fun hlt => by rw [if_neg (by omega)]⟩
  have h := map_update_append
    (fun record =>
      { record with
          paidAmount := record.paidAmount + amt
          paymentHistory := record.paymentHistory ++
            [{ id := now, amount := amt, date := now, notes := notes }]
          status := if record.paidAmount + amt ≥ record.amount then Status.paid
            else Status.pending })
    r.id l1 l2 r rfl hfresh
  rw [submitPayment, if_neg (by omega), if_neg (by omega), handlePartialPayment, h]

/-- C4: submitting a payment with a non-positive amount, or an amount above
the record's remaining balance, is rejected by the payment form with a
destructive toast (the `ValidationError` of the spec) and the store is
returned untouched: no entry is appended and no record changes. -/
theorem applyPayment_rejects_invalid (record : LendingRecord)
    (records : List LendingRecord) (amount : Int) (notes : Option Str) (now : Int)
    (hmem : record ∈ records)
    (hbad : amount ≤ 0 ∨ record.amount - record.paidAmount < amount) :
    submitPayment record amount notes now records =
      (records,
       some (if amount ≤ 0 then PayError.invalidAmount else PayError.amountTooHigh)) := by
  rcases hbad with h | h
  · rw [submitPayment, if_pos h, if_pos h]
  · by_cases h0 : amount ≤ 0
    · rw [submitPayment, if_pos h0, if_pos h0]
    · rw [submitPayment, if_neg h0, if_pos h, if_neg h0]

/-- C5: marking a record present in the store as paid sets its `status` to
`paid` and changes nothing else about it — every other field keeps its value,
so afterwards `status = paid` can hold with `paidAmount < amount`. -/
theorem markAsPaid_only_sets_status (l1 l2 : List LendingRecord) (r : LendingRecord)
    (hfresh : r.id ∉ (l1 ++ l2).map LendingRecord.id) :
    markAsPaid r.id (l1 ++ r :: l2) =
      l1 ++ ({ r with status := Status.paid } : LendingRecord) :: l2
    ∧ ({ r with status := Status.paid } : LendingRecord).status = Status.paid
    ∧ ({ r with status := Status.paid } : LendingRecord).paidAmount = r.paidAmount
    ∧ ({ r with status := Status.paid } : LendingRecord).paymentHistory = r.paymentHistory
    ∧ ({ r with status := Status.paid } : LendingRecord).id = r.id
    ∧ ({ r with status := Status.paid } : LendingRecord).borrowerName = r.borrowerName
    ∧ ({ r with status := Status.paid } : LendingRecord).amount = r.amount
    ∧ ({ r with status := Status.paid } : LendingRecord).reason = r.reason
    ∧ ({ r with status := Status.paid } : LendingRecord).lentDate = r.lentDate
    ∧ ({ r with status := Status.paid } : LendingRecord).notes = r.notes
    ∧ ({ r with status := Status.paid } : LendingRecord).createdAt = r.createdAt
    ∧ (r.paidAmount < r.amount →
        ({ r with status := Status.paid } : LendingRecord).paidAmount <
          ({ r with status := Status.paid } : LendingRecord).amount) := by
  refine ⟨?_, rfl, rfl, rfl, rfl, rfl, rfl, rfl, rfl, rfl, rfl, fun h => h⟩
  simp only [markAsPaid]
  exact map_update_append (fun record => { record with status := Status.paid })
    r.id l1 l2 r rfl hfresh

/-- C6 amended: with an absent record id each of the three targeted operations
leaves the store unchanged, but silently — no error of any kind is raised:
`markAsPaid` and the payment handler show no message at all, and
`deleteRecord` even shows its usual success message. -/
theorem absent_id_silent_noop (records : List LendingRecord) (rid : Id)
    (amount : Int) (notes : Option Str) (now : Int)
    (habs : rid ∉ records.map LendingRecord.id) :
    markAsPaidRun rid records = (records, none)
    ∧ deleteRecordRun rid records = (records, some Toast.recordDeleted)
    ∧ handlePartialPaymentRun rid amount notes now records = (records, none) := by
  have hfind : records.find? (fun record => decide (record.id = rid)) = none := by
    rw [List.find?_eq_none]
    intro x hx
    simp only [decide_eq_true_eq]
    intro hxe
    exact habs (hxe ▸ List.mem_map_of_mem LendingRecord.id hx)
  have hmark : markAsPaid rid records = records := by
    simp only [markAsPaid]
    exact map_update_id_not_mem _ rid records habs
  have hdel : deleteRecord rid records = records := by
    rw [deleteRecord, List.filter_eq_self]
    intro x hx
    simp only [decide_eq_true_eq]
    intro hxe
    exact habs (hxe ▸ List.mem_map_of_mem LendingRecord.id hx)
  refine ⟨?_, ?_, ?_⟩
  · rw [markAsPaidRun, hfind, hmark]
  · rw [deleteRecordRun, hdel]
  · rw [handlePartialPaymentRun, hfind]
    rw [show handlePartialPayment rid amount notes now records = records from by
      simp only [handlePartialPayment]
      exact map_update_id_not_mem _ rid records habs]

section AddHelpers

/-- Shared helper: the add form rejects falsy inputs and does not touch the
store. -/
theorem addRecord_rejects (recordData : AddData) (now : Int)
    (records : List LendingRecord)
    (h : recordData.borrowerName.getD [] = [] ∨ recordData.amount.getD 0 = 0
        ∨ recordData.reason.getD [] = []) :
    addRecord recordData now records = (records, some AddError.missingInformation) := by
  have hc : (strFalsy recordData.borrowerName || amountFalsy recordData.amount
      || strFalsy recordData.reason) = true := by
    rcases h with h | h | h <;> simp [strFalsy, amountFalsy, h]
  rw [addRecord, if_pos hc]

/-- Shared helper: with truthy inputs the add form calls `handleAddRecord`,
which prepends the freshly built record. -/
theorem addRecord_accepts (recordData : AddData) (now : Int)
    (records : List LendingRecord)
    (h1 : recordData.borrowerName.getD [] ≠ []) (h2 : recordData.amount.getD 0 ≠ 0)
    (h3 : recordData.reason.getD [] ≠ []) :
    addRecord recordData now records = (mkNewRecord recordData now :: records, none) := by
  have hc : (strFalsy recordData.borrowerName || amountFalsy recordData.amount
      || strFalsy recordData.reason) = false := by
    simp [strFalsy, amountFalsy, h1, h2, h3]
  rw [addRecord, if_neg (by simp [hc]), handleAddRecord]

end AddHelpers

/-- C7 amended: the add form fails with its "Missing Information" toast —
creating no record and leaving the store unchanged — exactly when the raw
(untrimmed) borrower name is the empty string, the amount is absent or zero,
or the reason is empty.  Whitespace-only names and negative amounts pass the
check (see the counterexample). -/
theorem add_validation_rules (recordData : AddData) (now : Int)
    (records : List LendingRecord) :
    ((recordData.borrowerName.getD [] = [] ∨ recordData.amount.getD 0 = 0
        ∨ recordData.reason.getD [] = []) →
      addRecord recordData now records = (records, some AddError.missingInformation))
    ∧ (recordData.borrowerName.getD [] ≠ [] → recordData.amount.getD 0 ≠ 0 →
        recordData.reason.getD [] ≠ [] →
        addRecord recordData now records = (mkNewRecord recordData now :: records, none)) :=
  ⟨addRecord_rejects recordData now records,
   addRecord_accepts recordData now records⟩

/-- C8 amended: a valid Add prepends a freshly built record with status
`pending`, `paidAmount` 0, empty history and the trimmed borrower name; its id
is the clock value `now`, which is distinct from every existing id whenever no
existing record carries that very timestamp (two Adds in the same millisecond
do collide — see the counterexample). -/
theorem add_success_shape (recordData : AddData) (now : Int)
    (records : List LendingRecord)
    (h1 : recordData.borrowerName.getD [] ≠ []) (h2 : recordData.amount.getD 0 ≠ 0)
    (h3 : recordData.reason.getD [] ≠ []) :
    addRecord recordData now records = (mkNewRecord recordData now :: records, none)
    ∧ (mkNewRecord recordData now).status = Status.pending
    ∧ (mkNewRecord recordData now).paidAmount = 0
    ∧ (mkNewRecord recordData now).paymentHistory = []
    ∧ (mkNewRecord recordData now).borrowerName = trim (recordData.borrowerName.getD [])
    ∧ (mkNewRecord recordData now).createdAt = now
    ∧ (mkNewRecord recordData now).id = now
    ∧ (now ∉ records.map LendingRecord.id →
        (mkNewRecord recordData now).id ∉ records.map LendingRecord.id) :=
  ⟨addRecord_accepts recordData now records h1 h2 h3,
   rfl, rfl, rfl, rfl, rfl, rfl, fun h => h⟩

/-- Shared helper: a freshly added record satisfies the accounting invariant. -/
theorem historyConsistent_mkNewRecord (recordData : AddData) (now : Int) :
    historyConsistent (mkNewRecord recordData now) := by
  simp [historyConsistent, mkNewRecord]

/-- Shared helper: one Add or ApplyPayment operation preserves the accounting
invariant for every record of the store. -/
theorem historyConsistent_applyOp (records : List LendingRecord) (op : Op)
    (h : ∀ r ∈ records, historyConsistent r) :
    ∀ r ∈ applyOp records op, historyConsistent r := by
  cases op with
  | add recordData now =>
    intro r hr
    by_cases hc : (strFalsy recordData.borrowerName || amountFalsy recordData.amount
        || strFalsy recordData.reason) = true
    · simp only [applyOp, addRecord, if_pos hc] at hr
      exact h r hr
    · simp only [applyOp, addRecord, if_neg hc, handleAddRecord, List.mem_cons] at hr
      rcases hr with rfl | hr
      · exact historyConsistent_mkNewRecord recordData now
      · exact h r hr
  | pay rid amount notes now =>
    intro r hr
    simp only [applyOp] at hr
    cases hfind : records.find? (fun record => decide (record.id = rid)) with
    | none =>
      simp only [applyPaymentOp, hfind] at hr
      exact h r hr
    | some record =>
      simp only [applyPaymentOp, hfind] at hr
      by_cases hc1 : amount ≤ 0
      · simp only [submitPayment, if_pos hc1] at hr
        exact h r hr
      · by_cases hc2 : record.amount - record.paidAmount < amount
        · simp only [submitPayment, if_neg hc1, if_pos hc2] at hr
          exact h r hr
        · simp only [submitPayment, if_neg hc1, if_neg hc2, handlePartialPayment,
            List.mem_map] at hr
          obtain ⟨x, hx, rfl⟩ := hr
          by_cases hxid : x.id = record.id
          · rw [if_pos hxid]
            have hhc := h x hx
            simp only [historyConsistent] at hhc ⊢
            simp [List.map_append, hhc]
          · rw [if_neg hxid]
            exact h x hx

/-- C3: after any sequence of Add and ApplyPayment operations starting from
the empty store, every record's `paidAmount` equals the sum of the amounts in
its `paymentHistory`. -/
theorem paidAmount_matches_history (ops : List Op) :
    ∀ r ∈ runOps ops, historyConsistent r := by
  simp only [runOps]
  suffices h : ∀ (l : List Op) (s : List LendingRecord),
      (∀ r ∈ s, historyConsistent r) → ∀ r ∈ l.foldl applyOp s, historyConsistent r by
    exact h ops [] (by simp)
  intro l
  induction l with
  | nil => intro s hs; exact hs
  | cons op l ih =>
    intro s hs
    rw [List.foldl_cons]
    exact ih (applyOp s op) (historyConsistent_applyOp s op hs)

/-- Sample record used by the concrete witnesses and counterexamples. -/
def sampleRecord : LendingRecord :=
  { id := 1, borrowerName := ['R'], amount := 500, reason := ['L'], lentDate := 3,
    status := Status.pending, notes := [], paidAmount := 0, paymentHistory := [],
    createdAt := 0 }

/-- Sample form input rejected by the add-form validation (empty name). -/
def emptyAddData : AddData :=
  { borrowerName := some [], amount := some 500, reason := some ['x'],
    lentDate := none, notes := none }

/-- Sample form input accepted by the add-form validation. -/
def goodAddData : AddData :=
  { borrowerName := some ['R'], amount := some 500, reason := some ['L'],
    lentDate := some 3, notes := none }

/-- Sample form input with a whitespace-only name and a negative amount. -/
def badAddData : AddData :=
  { borrowerName := some [' '], amount := some (-5), reason := some ['x'],
    lentDate := some 3, notes := none }

/-- C1 witness: paying the full remaining balance of the sample record. -/
theorem applyPayment_success_witness :
    submitPayment sampleRecord 500 none 9 [sampleRecord] =
      ([{ sampleRecord with
            paidAmount := sampleRecord.paidAmount + 500
            paymentHistory := sampleRecord.paymentHistory ++
              [{ id := 9, amount := 500, date := 9, notes := none }]
            status := if sampleRecord.paidAmount + 500 ≥ sampleRecord.amount
              then Status.paid else Status.pending }], none) := by
  have h := (applyPayment_success [] [] sampleRecord 500 none 9 (by decide) (by decide)
    (by decide)).1
  simpa using h

/-- C3 witness data: an Add followed by a partial payment. -/
def sampleOps : List Op :=
  [Op.add goodAddData 1, Op.pay 1 200 none 2]

/-- C3 witness data: the record produced by `sampleOps`. -/
def sampleAfterPay : LendingRecord :=
  { id := 1, borrowerName := ['R'], amount := 500, reason := ['L'], lentDate := 3,
    status := Status.pending, notes := [], paidAmount := 200,
    paymentHistory := [{ id := 2, amount := 200, date := 2, notes := none }],
    createdAt := 1 }

/-- C3 witness: the record produced by the sample operation sequence satisfies
the accounting invariant. -/
theorem paidAmount_matches_history_witness :
    sampleAfterPay ∈ runOps sampleOps ∧ historyConsistent sampleAfterPay :=
  ⟨by decide, paidAmount_matches_history sampleOps sampleAfterPay (by decide)⟩

/-- C4 witness: overpaying the sample record (600 against remaining 500) is
rejected and the store is untouched. -/
theorem applyPayment_rejects_invalid_witness :
    submitPayment sampleRecord 600 none 9 [sampleRecord] =
      ([sampleRecord], some PayError.amountTooHigh) := by
  have h := applyPayment_rejects_invalid sampleRecord [sampleRecord] 600 none 9
    (by decide) (Or.inr (by decide))
  simpa using h

/-- C5 witness: marking the sample record paid. -/
theorem markAsPaid_only_sets_status_witness :
    markAsPaid sampleRecord.id [sampleRecord] =
      [{ sampleRecord with status := Status.paid }]
    ∧ ({ sampleRecord with status := Status.paid } : LendingRecord).paidAmount =
        sampleRecord.paidAmount := by
  have h := markAsPaid_only_sets_status [] [] sampleRecord (by decide)
  exact ⟨by simpa using h.1, h.2.2.1⟩

/-- C6 counterexample: calling the three operations with the absent id 2 on a
store holding only id 1 completes without any error signal — the claimed
`NotFoundError` does not exist anywhere in the code.  `markAsPaid` and the
payment handler show nothing; `deleteRecord` even shows its success toast. -/
theorem notFound_silent_noop_cex :
    markAsPaidRun 2 [sampleRecord] = ([sampleRecord], none)
    ∧ deleteRecordRun 2 [sampleRecord] = ([sampleRecord], some Toast.recordDeleted)
    ∧ handlePartialPaymentRun 2 10 none 9 [sampleRecord] = ([sampleRecord], none) := by
  refine ⟨by decide, by decide, by decide⟩

/-- C6 witness: the amended statement at the absent id 7. -/
theorem absent_id_silent_noop_witness :
    markAsPaidRun 7 [sampleRecord] = ([sampleRecord], none)
    ∧ deleteRecordRun 7 [sampleRecord] = ([sampleRecord], some Toast.recordDeleted)
    ∧ handlePartialPaymentRun 7 10 none 9 [sampleRecord] = ([sampleRecord], none) :=
  absent_id_silent_noop [sampleRecord] 7 10 none 9 (by decide)

/-- C7 counterexample: a whitespace-only borrower name (empty after trimming)
together with the negative amount -5 — both of which the claim says must fail
with a ValidationError — passes the form check, and a record with an empty
trimmed name and negative amount is created. -/
theorem add_validation_cex :
    (addRecord badAddData 7 []).2 = none
    ∧ (addRecord badAddData 7 []).1.map LendingRecord.borrowerName = [[]]
    ∧ (addRecord badAddData 7 []).1.map LendingRecord.amount = [-5] := by
  refine ⟨by decide, by decide, by decide⟩

/-- C7 witness: an empty name is rejected; a fully valid input is accepted. -/
theorem add_validation_rules_witness :
    addRecord emptyAddData 7 [] = ([], some AddError.missingInformation)
    ∧ addRecord goodAddData 7 [] = ([mkNewRecord goodAddData 7], none) :=
  ⟨(add_validation_rules emptyAddData 7 []).1 (Or.inl (by decide)),
   (add_validation_rules goodAddData 7 []).2 (by decide) (by decide) (by decide)⟩

/-- C8 counterexample: two valid Adds carried out at the same clock value 5
(`Date.now()` has millisecond resolution and is not strictly monotonic)
produce two records with the identical id 5, so the second record's id is not
distinct from every existing record's id. -/
theorem add_duplicate_id_cex :
    ((addRecord goodAddData 5 (addRecord goodAddData 5 []).1).1.map LendingRecord.id) =
      [5, 5]
    ∧ ¬ ((addRecord goodAddData 5 (addRecord goodAddData 5 []).1).1.map
        LendingRecord.id).Nodup := by
  refine ⟨by decide, by decide⟩

/-- C8 witness: the amended statement at a concrete valid input. -/
theorem add_success_shape_witness :
    addRecord goodAddData 7 [] = ([mkNewRecord goodAddData 7], none)
    ∧ (mkNewRecord goodAddData 7).status = Status.pending
    ∧ (mkNewRecord goodAddData 7).id ∉ ([] : List LendingRecord).map LendingRecord.id := by
  have h := add_success_shape goodAddData 7 [] (by decide) (by decide) (by decide)
  exact ⟨h.1, h.2.1, h.2.2.2.2.2.2.2 (by decide)⟩

/-- The `BorrowerSummary` interface of `page.tsx`. -/
structure BorrowerSummary where
  name : Str
  totalOwed : Int
  totalBorrowed : Int
  recordCount : Nat
  lastBorrowed : Int
  deriving DecidableEq

instance : Inhabited BorrowerSummary :=
  ⟨{ name := [], totalOwed := 0, totalBorrowed := 0, recordCount := 0, lastBorrowed := 0 }⟩

/-- JS `Map.prototype.get` on an insertion-ordered association list (a JS
`Map` iterates its entries in insertion order). -/
def mapGet (k : Str) : List (Str × BorrowerSummary) → Option BorrowerSummary
  | [] => none
  | p :: rest => if p.1 = k then some p.2 else mapGet k rest

/-- JS `Map.prototype.set`: overwrite in place when the key is present
(keeping its original insertion position), append at the end otherwise. -/
def mapSet (k : Str) (v : BorrowerSummary) :
    List (Str × BorrowerSummary) → List (Str × BorrowerSummary)
  | [] => [(k, v)]
  | p :: rest => if p.1 = k then (k, v) :: rest else p :: mapSet k v rest

/-- The default summary built when a normalized name is first seen, with the
record's trimmed name as display name. -/
def freshSummary (record : LendingRecord) : BorrowerSummary :=
  { name := trim record.borrowerName
    totalOwed := 0
    totalBorrowed := 0
    recordCount := 0
    lastBorrowed := record.lentDate }

/-- The body of the `reduce` step inside `borrowerSummaries`: fetch or create
the class summary, add the record's amount and bump the count, add the
outstanding part when the record is pending, and bump `lastBorrowed` when
`record.lentDate > existing.lastBorrowed`. -/
def stepSummary (record : LendingRecord) (found : Option BorrowerSummary) : BorrowerSummary :=
  let existing := found.getD (freshSummary record)
  { name := existing.name
    totalOwed := if record.status = Status.pending
      then existing.totalOwed + (record.amount - record.paidAmount)
      else existing.totalOwed
    totalBorrowed := existing.totalBorrowed + record.amount
    recordCount := existing.recordCount + 1
    lastBorrowed := if existing.lastBorrowed < record.lentDate
      then record.lentDate else existing.lastBorrowed }

/-- One `reduce` step over the map accumulator, keyed by the normalized name. -/
def buildStep (m : List (Str × BorrowerSummary)) (record : LendingRecord) :
    List (Str × BorrowerSummary) :=
  mapSet (normalizeName record.borrowerName)
    (stepSummary record (mapGet (normalizeName record.borrowerName) m)) m

/-- The `records.reduce(..., new Map())` part of `borrowerSummaries`. -/
def buildMap (records : List LendingRecord) : List (Str × BorrowerSummary) :=
  records.foldl buildStep []

/-- Insert a summary into a list sorted descending by `totalOwed`, after every
element whose `totalOwed` is at least as large (so equal keys keep their
relative order). -/
def insertByOwed (x : BorrowerSummary) : List BorrowerSummary → List BorrowerSummary
  | [] => [x]
  | y :: ys => if y.totalOwed < x.totalOwed then x :: y :: ys else y :: insertByOwed x ys

/-- JS `Array.prototype.sort` with comparator `(a, b) => b.totalOwed -
a.totalOwed`: the ECMAScript sort is stable and orders by the comparator, so
it is extensionally this stable insertion sort (descending by `totalOwed`,
ties keeping input order). -/
def sortByOwedDesc (l : List BorrowerSummary) : List BorrowerSummary :=
  l.foldl (fun acc x => insertByOwed x acc) []

/-- The `borrowerSummaries` computation of `page.tsx`:
`Array.from(records.reduce(...).values()).sort((a, b) => b.totalOwed - a.totalOwed)`. -/
def borrowerSummaries (records : List LendingRecord) : List BorrowerSummary :=
  sortByOwedDesc ((buildMap records).map Prod.snd)

/-- Spec-side abbreviation: the contribution of one record to its class's
`totalOwed` (the outstanding part for pending records, 0 for paid ones). -/
def owedContrib (record : LendingRecord) : Int :=
  if record.status = Status.pending then record.amount - record.paidAmount else 0

section SummaryHelpers

theorem mapGet_mapSet_self (k : Str) (v : BorrowerSummary) :
    ∀ m, mapGet k (mapSet k v m) = some v := by
  intro m
  induction m with
  | nil => simp [mapSet, mapGet]
  | cons p rest ih =>
    by_cases hp : p.1 = k
    · simp [mapSet, hp, mapGet]
    · simp [mapSet, hp, mapGet, ih]

theorem mapGet_mapSet_ne (k k' : Str) (v : BorrowerSummary) (hne : k' ≠ k) :
    ∀ m, mapGet k (mapSet k' v m) = mapGet k m := by
  intro m
  induction m with
  | nil =>
    simp only [mapSet, mapGet]
    rw [if_neg hne]
  | cons p rest ih =>
    by_cases hp : p.1 = k'
    · rw [show mapSet k' v (p :: rest) = (k', v) :: rest from by
        simp only [mapSet]; rw [if_pos hp]]
      simp only [mapGet]
      rw [if_neg hne, if_neg (show ¬ p.1 = k from by rw [hp]; exact hne)]
    · rw [show mapSet k' v (p :: rest) = p :: mapSet k' v rest from by
        simp only [mapSet]; rw [if_neg hp]]
      simp only [mapGet]
      by_cases hpk : p.1 = k
      · rw [if_pos hpk, if_pos hpk]
      · rw [if_neg hpk, if_neg hpk, ih]

theorem keys_mapSet (k : Str) (v : BorrowerSummary) :
    ∀ m, (mapSet k v m).map Prod.fst =
      if k ∈ m.map Prod.fst then m.map Prod.fst else m.map Prod.fst ++ [k] := by
  intro m
  induction m with
  | nil => simp [mapSet]
  | cons p rest ih =>
    by_cases hp : p.1 = k
    · rw [show mapSet k v (p :: rest) = (k, v) :: rest from by simp [mapSet, hp]]
      have hmem : k ∈ (p :: rest).map Prod.fst := by
        simp only [List.map_cons, List.mem_cons]
        exact Or.inl hp.symm
      rw [if_pos hmem]
      simp [hp]
    · rw [show mapSet k v (p :: rest) = p :: mapSet k v rest from by simp [mapSet, hp]]
      by_cases hk : k ∈ rest.map Prod.fst
      · have hmem : k ∈ (p :: rest).map Prod.fst := by
          simp only [List.map_cons, List.mem_cons]
          exact Or.inr hk
        rw [if_pos hmem]
        simp only [List.map_cons]
        rw [ih, if_pos hk]
      · have hmem : k ∉ (p :: rest).map Prod.fst := by
          simp only [List.map_cons, List.mem_cons]
          push_neg
          exact ⟨fun he => hp he.symm, hk⟩
        rw [if_neg hmem]
        simp only [List.map_cons]
        rw [ih, if_neg hk]
        rfl

theorem mem_keys_mapSet (k a : Str) (v : BorrowerSummary) (m : List (Str × BorrowerSummary)) :
    a ∈ (mapSet k v m).map Prod.fst ↔ a = k ∨ a ∈ m.map Prod.fst := by
  rw [keys_mapSet]
  by_cases hk : k ∈ m.map Prod.fst
  · rw [if_pos hk]
    constructor
    · exact Or.inr
    · rintro (rfl | h)
      · exact hk
      · exact h
  · rw [if_neg hk]
    simp [or_comm]

theorem nodup_keys_mapSet (k : Str) (v : BorrowerSummary) (m : List (Str × BorrowerSummary))
    (h : (m.map Prod.fst).Nodup) : ((mapSet k v m).map Prod.fst).Nodup := by
  rw [keys_mapSet]
  by_cases hk : k ∈ m.map Prod.fst
  · rw [if_pos hk]; exact h
  · rw [if_neg hk]; simp [List.nodup_append, h, hk]

theorem mapGet_foldl_buildStep (k : Str) :
    ∀ (rs : List LendingRecord) (m : List (Str × BorrowerSummary)),
      mapGet k (rs.foldl buildStep m) =
        (rs.filter (fun r => decide (normalizeName r.borrowerName = k))).foldl
          (fun found r => some (stepSummary r found)) (mapGet k m) := by
  intro rs
  induction rs with
  | nil => intro m; rfl
  | cons r rs ih =>
    intro m
    rw [List.foldl_cons, ih]
    by_cases hk : normalizeName r.borrowerName = k
    · rw [show buildStep m r = mapSet k (stepSummary r (mapGet k m)) m from by
        rw [buildStep, hk]]
      rw [mapGet_mapSet_self]
      rw [List.filter_cons,
        if_pos (show decide (normalizeName r.borrowerName = k) = true by simp [hk]),
        List.foldl_cons]
    · rw [show mapGet k (buildStep m r) = mapGet k m from by
        rw [buildStep]
        exact mapGet_mapSet_ne k (normalizeName r.borrowerName) _ hk m]
      rw [List.filter_cons,
        if_neg (show ¬ decide (normalizeName r.borrowerName = k) = true by simp [hk])]

theorem mem_keys_foldl (a : Str) :
    ∀ (rs : List LendingRecord) (m : List (Str × BorrowerSummary)),
      a ∈ (rs.foldl buildStep m).map Prod.fst ↔
        a ∈ m.map Prod.fst ∨ a ∈ rs.map (fun r => normalizeName r.borrowerName) := by
  intro rs
  induction rs with
  | nil => intro m; simp
  | cons r rs ih =>
    intro m
    have hb : a ∈ (buildStep m r).map Prod.fst ↔
        a = normalizeName r.borrowerName ∨ a ∈ m.map Prod.fst := by
      rw [buildStep]
      exact mem_keys_mapSet _ a _ m
    rw [List.foldl_cons, ih, hb, List.map_cons, List.mem_cons]
    tauto

theorem nodup_keys_foldl :
    ∀ (rs : List LendingRecord) (m : List (Str × BorrowerSummary)),
      (m.map Prod.fst).Nodup → ((rs.foldl buildStep m).map Prod.fst).Nodup := by
  intro rs
  induction rs with
  | nil => intro m h; exact h
  | cons r rs ih =>
    intro m h
    rw [List.foldl_cons]
    refine ih _ ?_
    rw [buildStep]
    exact nodup_keys_mapSet _ _ m h

theorem mapGet_mem_of_nodup :
    ∀ m : List (Str × BorrowerSummary), (m.map Prod.fst).Nodup →
      ∀ p ∈ m, mapGet p.1 m = some p.2 := by
  intro m
  induction m with
  | nil => intro _ p hp; cases hp
  | cons q rest ih =>
    intro h p hp
    rw [List.map_cons, List.nodup_cons] at h
    obtain ⟨hq, hrest⟩ := h
    rcases List.mem_cons.mp hp with rfl | hp'
    · simp [mapGet]
    · have hne : ¬ q.1 = p.1 := by
        intro he
        exact hq (he ▸ List.mem_map_of_mem Prod.fst hp')
      simp only [mapGet]
      rw [if_neg hne]
      exact ih hrest p hp'

theorem mapGet_isSome_iff (k : Str) :
    ∀ m : List (Str × BorrowerSummary),
      (∃ s, mapGet k m = some s) ↔ k ∈ m.map Prod.fst := by
  intro m
  induction m with
  | nil => simp [mapGet]
  | cons p rest ih =>
    simp only [mapGet, List.map_cons, List.mem_cons]
    by_cases hp : p.1 = k
    · rw [if_pos hp]
      exact ⟨fun _ => Or.inl hp.symm, fun _ => ⟨p.2, rfl⟩⟩
    · rw [if_neg hp, ih]
      constructor
      · exact Or.inr
      · rintro (rfl | h)
        · exact absurd rfl hp
        · exact h

/-- One step of the class fold once the summary exists. -/
def sFoldStep (acc : BorrowerSummary) (record : LendingRecord) : BorrowerSummary :=
  stepSummary record (some acc)

theorem foldl_some_stepSummary (cs : List LendingRecord) :
    ∀ s : BorrowerSummary,
      cs.foldl (fun found r => some (stepSummary r found)) (some s) =
        some (cs.foldl sFoldStep s) := by
  induction cs with
  | nil => intro s; rfl
  | cons c cs ih =>
    intro s
    rw [List.foldl_cons, List.foldl_cons]
    exact ih _

theorem sFold_name (cs : List LendingRecord) :
    ∀ s : BorrowerSummary, (cs.foldl sFoldStep s).name = s.name := by
  induction cs with
  | nil => intro s; rfl
  | cons c cs ih =>
    intro s
    rw [List.foldl_cons, ih]
    rfl

theorem sFold_recordCount (cs : List LendingRecord) :
    ∀ s : BorrowerSummary, (cs.foldl sFoldStep s).recordCount = s.recordCount + cs.length := by
  induction cs with
  | nil => intro s; simp
  | cons c cs ih =>
    intro s
    rw [List.foldl_cons, ih, List.length_cons]
    simp [sFoldStep, stepSummary]
    omega

theorem sFold_totalBorrowed (cs : List LendingRecord) :
    ∀ s : BorrowerSummary,
      (cs.foldl sFoldStep s).totalBorrowed =
        s.totalBorrowed + (cs.map LendingRecord.amount).sum := by
  induction cs with
  | nil => intro s; simp
  | cons c cs ih =>
    intro s
    rw [List.foldl_cons, ih, List.map_cons, List.sum_cons]
    have hstep : (sFoldStep s c).totalBorrowed = s.totalBorrowed + c.amount := rfl
    rw [hstep]
    ring

theorem sFold_totalOwed (cs : List LendingRecord) :
    ∀ s : BorrowerSummary,
      (cs.foldl sFoldStep s).totalOwed = s.totalOwed + (cs.map owedContrib).sum := by
  induction cs with
  | nil => intro s; simp
  | cons c cs ih =>
    intro s
    rw [List.foldl_cons, ih, List.map_cons, List.sum_cons]
    have hstep : (sFoldStep s c).totalOwed = s.totalOwed + owedContrib c := by
      by_cases hc : c.status = Status.pending <;>
        simp [sFoldStep, stepSummary, owedContrib, hc]
    rw [hstep]
    ring

theorem sFold_lastBorrowed (cs : List LendingRecord) :
    ∀ s : BorrowerSummary,
      (cs.foldl sFoldStep s).lastBorrowed =
        cs.foldl (fun d r => max d r.lentDate) s.lastBorrowed := by
  induction cs with
  | nil => intro s; rfl
  | cons c cs ih =>
    intro s
    rw [List.foldl_cons, List.foldl_cons, ih]
    congr 1
    by_cases hc : s.lastBorrowed < c.lentDate
    · simp [sFoldStep, stepSummary, hc, max_eq_right hc.le]
    · simp [sFoldStep, stepSummary, hc, max_eq_left (not_lt.mp hc)]

theorem foldl_max_init_le (cs : List LendingRecord) :
    ∀ d : Int, d ≤ cs.foldl (fun d r => max d r.lentDate) d := by
  induction cs with
  | nil => intro d; exact le_refl d
  | cons c cs ih =>
    intro d
    rw [List.foldl_cons]
    exact le_trans (le_max_left d c.lentDate) (ih (max d c.lentDate))

theorem foldl_max_mem_le (cs : List LendingRecord) :
    ∀ (d : Int) (r : LendingRecord), r ∈ cs →
      r.lentDate ≤ cs.foldl (fun d r => max d r.lentDate) d := by
  induction cs with
  | nil => intro d r hr; cases hr
  | cons c cs ih =>
    intro d r hr
    rw [List.foldl_cons]
    rcases List.mem_cons.mp hr with rfl | hr'
    · exact le_trans (le_max_right d r.lentDate) (foldl_max_init_le cs _)
    · exact ih _ r hr'

theorem foldl_max_mem_or (cs : List LendingRecord) :
    ∀ d : Int, cs.foldl (fun d r => max d r.lentDate) d = d
      ∨ ∃ r ∈ cs, cs.foldl (fun d r => max d r.lentDate) d = r.lentDate := by
  induction cs with
  | nil => intro d; exact Or.inl rfl
  | cons c cs ih =>
    intro d
    rw [List.foldl_cons]
    rcases ih (max d c.lentDate) with h | ⟨r, hr, h⟩
    · rcases max_choice d c.lentDate with hm | hm
      · exact Or.inl (by rw [h, hm])
      · exact Or.inr ⟨c, List.mem_cons_self c cs, by rw [h, hm]⟩
    · exact Or.inr ⟨r, List.mem_cons_of_mem c hr, h⟩

theorem sum_owedContrib (cs : List LendingRecord) :
    (cs.map owedContrib).sum =
      ((cs.filter (fun r => decide (r.status = Status.pending))).map
        (fun r => r.amount - r.paidAmount)).sum := by
  induction cs with
  | nil => rfl
  | cons c cs ih =>
    by_cases hc : c.status = Status.pending
    · simp [owedContrib, hc, List.filter_cons, ih]
    · simp [owedContrib, hc, List.filter_cons, ih]

theorem insertByOwed_split (x : BorrowerSummary) :
    ∀ acc, ∃ u v, acc = u ++ v ∧ insertByOwed x acc = u ++ x :: v := by
  intro acc
  induction acc with
  | nil => exact ⟨[], [], rfl, rfl⟩
  | cons y ys ih =>
    by_cases hy : y.totalOwed < x.totalOwed
    · exact ⟨[], y :: ys, rfl, by simp [insertByOwed, hy]⟩
    · obtain ⟨u, v, h1, h2⟩ := ih
      refine ⟨y :: u, v, by rw [h1]; rfl, ?_⟩
      simp [insertByOwed, hy, h2]

theorem insertByOwed_perm (x : BorrowerSummary) (acc : List BorrowerSummary) :
    (insertByOwed x acc).Perm (x :: acc) := by
  obtain ⟨u, v, h1, h2⟩ := insertByOwed_split x acc
  rw [h2, h1]
  exact List.perm_middle

theorem mem_insertByOwed (x z : BorrowerSummary) (acc : List BorrowerSummary) :
    z ∈ insertByOwed x acc ↔ z = x ∨ z ∈ acc := by
  rw [List.Perm.mem_iff (insertByOwed_perm x acc), List.mem_cons]

theorem insertByOwed_pairwise (x : BorrowerSummary) :
    ∀ acc, acc.Pairwise (fun a b => b.totalOwed ≤ a.totalOwed) →
      (insertByOwed x acc).Pairwise (fun a b => b.totalOwed ≤ a.totalOwed) := by
  intro acc
  induction acc with
  | nil => intro _; simp [insertByOwed]
  | cons y ys ih =>
    intro h
    rw [List.pairwise_cons] at h
    obtain ⟨hy, hys⟩ := h
    by_cases hlt : y.totalOwed < x.totalOwed
    · rw [show insertByOwed x (y :: ys) = x :: y :: ys from by simp [insertByOwed, hlt]]
      rw [List.pairwise_cons]
      refine ⟨?_, List.pairwise_cons.mpr ⟨hy, hys⟩⟩
      intro z hz
      rcases List.mem_cons.mp hz with rfl | hz'
      · exact hlt.le
      · exact le_trans (hy z hz') hlt.le
    · rw [show insertByOwed x (y :: ys) = y :: insertByOwed x ys from by
        simp [insertByOwed, hlt]]
      rw [List.pairwise_cons]
      refine ⟨?_, ih hys⟩
      intro z hz
      rcases (mem_insertByOwed x z ys).mp hz with rfl | hz'
      · exact not_lt.mp hlt
      · exact hy z hz'

theorem sortFold_pairwise :
    ∀ (l acc : List BorrowerSummary),
      acc.Pairwise (fun a b => b.totalOwed ≤ a.totalOwed) →
      (l.foldl (fun acc x => insertByOwed x acc) acc).Pairwise
        (fun a b => b.totalOwed ≤ a.totalOwed) := by
  intro l
  induction l with
  | nil => intro acc h; exact h
  | cons x l ih =>
    intro acc h
    rw [List.foldl_cons]
    exact ih _ (insertByOwed_pairwise x acc h)

theorem filter_insertByOwed (v : Int) (x : BorrowerSummary) :
    ∀ acc, acc.Pairwise (fun a b => b.totalOwed ≤ a.totalOwed) →
      (insertByOwed x acc).filter (fun s => decide (s.totalOwed = v)) =
        if x.totalOwed = v
          then acc.filter (fun s => decide (s.totalOwed = v)) ++ [x]
          else acc.filter (fun s => decide (s.totalOwed = v)) := by
  intro acc
  induction acc with
  | nil =>
    intro _
    by_cases hx : x.totalOwed = v
    · simp [insertByOwed, hx]
    · simp [insertByOwed, hx]
  | cons y ys ih =>
    intro h
    rw [List.pairwise_cons] at h
    obtain ⟨hy, hys⟩ := h
    by_cases hlt : y.totalOwed < x.totalOwed
    · rw [show insertByOwed x (y :: ys) = x :: y :: ys from by simp [insertByOwed, hlt]]
      by_cases hx : x.totalOwed = v
      · have hempty : (y :: ys).filter (fun s => decide (s.totalOwed = v)) = [] := by
          rw [List.filter_eq_nil_iff]
          intro z hz
          simp only [decide_eq_true_eq]
          rcases List.mem_cons.mp hz with rfl | hz'
          · omega
          · have := hy z hz'
            omega
        rw [if_pos hx, hempty, List.filter_cons,
          if_pos (show decide (x.totalOwed = v) = true by simp [hx]), hempty]
        rfl
      · rw [if_neg hx, List.filter_cons,
          if_neg (show ¬ decide (x.totalOwed = v) = true by simp [hx])]
    · rw [show insertByOwed x (y :: ys) = y :: insertByOwed x ys from by
        simp [insertByOwed, hlt]]
      by_cases hx : x.totalOwed = v
      · rw [if_pos hx, List.filter_cons, List.filter_cons, ih hys, if_pos hx]
        by_cases hyv : y.totalOwed = v
        · rw [if_pos (show decide (y.totalOwed = v) = true by simp [hyv]),
            if_pos (show decide (y.totalOwed = v) = true by simp [hyv])]
          rfl
        · rw [if_neg (show ¬ decide (y.totalOwed = v) = true by simp [hyv]),
            if_neg (show ¬ decide (y.totalOwed = v) = true by simp [hyv])]
      · rw [if_neg hx, List.filter_cons, List.filter_cons, ih hys, if_neg hx]

theorem filter_sortFold (v : Int) :
    ∀ (l acc : List BorrowerSummary),
      acc.Pairwise (fun a b => b.totalOwed ≤ a.totalOwed) →
      (l.foldl (fun acc x => insertByOwed x acc) acc).filter
          (fun s => decide (s.totalOwed = v)) =
        acc.filter (fun s => decide (s.totalOwed = v)) ++
          l.filter (fun s => decide (s.totalOwed = v)) := by
  intro l
  induction l with
  | nil => intro acc h; simp
  | cons x l ih =>
    intro acc h
    rw [List.foldl_cons, ih _ (insertByOwed_pairwise x acc h),
      filter_insertByOwed v x acc h, List.filter_cons]
    by_cases hx : x.totalOwed = v
    · rw [if_pos hx, if_pos (show decide (x.totalOwed = v) = true by simp [hx]),
        List.append_assoc]
      rfl
    · rw [if_neg hx, if_neg (show ¬ decide (x.totalOwed = v) = true by simp [hx])]

theorem sortFold_perm :
    ∀ (l acc : List BorrowerSummary),
      (l.foldl (fun acc x => insertByOwed x acc) acc).Perm (acc ++ l) := by
  intro l
  induction l with
  | nil => intro acc; simp
  | cons x l ih =>
    intro acc
    rw [List.foldl_cons]
    refine (ih (insertByOwed x acc)).trans ?_
    refine (List.Perm.append_right l (insertByOwed_perm x acc)).trans ?_
    exact List.perm_middle.symm

end SummaryHelpers

/-- C9: `borrowerSummaries` produces exactly one summary per identity class —
the map's keys are the distinct normalized (trim, lowercase, collapse
whitespace) names and each key holds one summary — where the summary of class
`k` is computed from the records whose normalized name is `k`: its `name` is
the first-encountered record's trimmed (not lowercased) name, `recordCount`
the class size, `totalBorrowed` the sum of amounts, `totalOwed` the sum of
`amount - paidAmount` over the pending records of the class, and
`lastBorrowed` the maximum `lentDate`; the output is a permutation of the
class summaries in first-encounter order, sorted descending by `totalOwed`,
and ties keep first-encounter order (the filter at any fixed `totalOwed`
value equals the unsorted one). -/
theorem borrowerSummaries_correct (records : List LendingRecord) :
    (borrowerSummaries records).Perm ((buildMap records).map Prod.snd)
    ∧ ((buildMap records).map Prod.fst).Nodup
    ∧ (∀ k, k ∈ (buildMap records).map Prod.fst ↔
        k ∈ records.map (fun r => normalizeName r.borrowerName))
    ∧ (∀ p ∈ buildMap records, mapGet p.1 (buildMap records) = some p.2)
    ∧ (∀ k, (∃ r ∈ records, normalizeName r.borrowerName = k) →
        ∃ s, mapGet k (buildMap records) = some s)
    ∧ (∀ k s, mapGet k (buildMap records) = some s →
        ∃ c0 rest,
          records.filter (fun r => decide (normalizeName r.borrowerName = k)) = c0 :: rest
          ∧ s.name = trim c0.borrowerName
          ∧ s.recordCount =
              (records.filter (fun r => decide (normalizeName r.borrowerName = k))).length
          ∧ s.totalBorrowed =
              ((records.filter (fun r => decide (normalizeName r.borrowerName = k))).map
                LendingRecord.amount).sum
          ∧ s.totalOwed =
              (((records.filter (fun r => decide (normalizeName r.borrowerName = k))).filter
                (fun r => decide (r.status = Status.pending))).map
                  (fun r => r.amount - r.paidAmount)).sum
          ∧ s.lastBorrowed ∈
              (records.filter (fun r => decide (normalizeName r.borrowerName = k))).map
                LendingRecord.lentDate
          ∧ (∀ r ∈ records.filter (fun r => decide (normalizeName r.borrowerName = k)),
              r.lentDate ≤ s.lastBorrowed))
    ∧ (borrowerSummaries records).Pairwise (fun a b => b.totalOwed ≤ a.totalOwed)
    ∧ (∀ v : Int,
        (borrowerSummaries records).filter (fun s => decide (s.totalOwed = v)) =
          ((buildMap records).map Prod.snd).filter (fun s => decide (s.totalOwed = v))) := by
  refine ⟨?_, ?_, ?_, ?_, ?_, ?_, ?_, ?_⟩
  · simp only [borrowerSummaries, sortByOwedDesc]
    have h := sortFold_perm ((buildMap records).map Prod.snd) []
    simpa using h
  · simp only [buildMap]
    exact nodup_keys_foldl records [] (by simp)
  · intro k
    simp only [buildMap]
    rw [mem_keys_foldl k records []]
    simp
  · intro p hp
    simp only [buildMap] at hp ⊢
    exact mapGet_mem_of_nodup _ (nodup_keys_foldl records [] (by simp)) p hp
  · intro k hk
    obtain ⟨r, hr, hnorm⟩ := hk
    refine (mapGet_isSome_iff k (buildMap records)).mpr ?_
    simp only [buildMap]
    rw [mem_keys_foldl k records []]
    exact Or.inr (List.mem_map.mpr ⟨r, hr, hnorm⟩)
  · intro k s hks
    have hget := mapGet_foldl_buildStep k records []
    rw [show (buildMap records) = records.foldl buildStep [] from rfl] at hks
    rw [hks] at hget
    cases hcs : records.filter (fun r => decide (normalizeName r.borrowerName = k)) with
    | nil =>
      rw [hcs] at hget
      rw [show mapGet k ([] : List (Str × BorrowerSummary)) = none from rfl] at hget
      simp at hget
    | cons c0 rest =>
      rw [hcs, List.foldl_cons] at hget
      rw [show mapGet k ([] : List (Str × BorrowerSummary)) = none from rfl] at hget
      rw [foldl_some_stepSummary] at hget
      have hs : s = rest.foldl sFoldStep (stepSummary c0 none) := Option.some.inj hget
      have hinit_name : (stepSummary c0 none).name = trim c0.borrowerName := rfl
      have hinit_count : (stepSummary c0 none).recordCount = 1 := rfl
      have hinit_borrowed : (stepSummary c0 none).totalBorrowed = c0.amount := by
        simp [stepSummary, freshSummary]
      have hinit_owed : (stepSummary c0 none).totalOwed = owedContrib c0 := by
        by_cases hc : c0.status = Status.pending <;>
          simp [stepSummary, freshSummary, owedContrib, hc]
      have hinit_last : (stepSummary c0 none).lastBorrowed = c0.lentDate := by
        simp [stepSummary, freshSummary]
      refine ⟨c0, rest, rfl, ?_, ?_, ?_, ?_, ?_, ?_⟩
      · rw [hs, sFold_name, hinit_name]
      · rw [hs, sFold_recordCount, hinit_count, List.length_cons]
        omega
      · rw [hs, sFold_totalBorrowed, hinit_borrowed, List.map_cons, List.sum_cons]
      · rw [hs, sFold_totalOwed, hinit_owed, ← sum_owedContrib, List.map_cons,
          List.sum_cons]
      · rw [hs, sFold_lastBorrowed, hinit_last]
        rcases foldl_max_mem_or rest c0.lentDate with h | ⟨r, hr, h⟩
        · rw [h]
          exact List.mem_map_of_mem _ (List.mem_cons_self c0 rest)
        · rw [h]
          exact List.mem_map_of_mem _ (List.mem_cons_of_mem c0 hr)
      · rw [hs, sFold_lastBorrowed, hinit_last]
        intro r hr
        rcases List.mem_cons.mp hr with rfl | hr'
        · exact foldl_max_init_le rest r.lentDate
        · exact foldl_max_mem_le rest c0.lentDate r hr'
  · simp only [borrowerSummaries, sortByOwedDesc]
    exact sortFold_pairwise _ [] (by simp)
  · intro v
    simp only [borrowerSummaries, sortByOwedDesc]
    rw [filter_sortFold v _ [] (by simp)]
    rfl

/-- C9 witness data: two pending records whose names normalize to the same
class ("Amit" and " amit "). -/
def summaryRecordA : LendingRecord :=
  { id := 11, borrowerName := ['A', 'm', 'i', 't'], amount := 100, reason := ['x'],
    lentDate := 3, status := Status.pending, notes := [], paidAmount := 0,
    paymentHistory := [], createdAt := 0 }

/-- C9 witness data: the second record of the class. -/
def summaryRecordB : LendingRecord :=
  { id := 12, borrowerName := [' ', 'a', 'm', 'i', 't', ' '], amount := 50,
    reason := ['y'], lentDate := 4, status := Status.pending, notes := [],
    paidAmount := 0, paymentHistory := [], createdAt := 0 }

/-- C9 witness data: the normalized class key. -/
def summaryKey : Str := ['a', 'm', 'i', 't']

/-- C9 witness data: the summary the class fold produces. -/
def summaryExpected : BorrowerSummary :=
  { name := ['A', 'm', 'i', 't'], totalOwed := 150, totalBorrowed := 150,
    recordCount := 2, lastBorrowed := 4 }

/-- C9 witness: the two sample records land in one class whose summary counts
both and sums both amounts. -/
theorem borrowerSummaries_correct_witness :
    summaryExpected.recordCount =
      ([summaryRecordA, summaryRecordB].filter
        (fun r => decide (normalizeName r.borrowerName = summaryKey))).length
    ∧ summaryExpected.totalBorrowed =
      (([summaryRecordA, summaryRecordB].filter
        (fun r => decide (normalizeName r.borrowerName = summaryKey))).map
          LendingRecord.amount).sum := by
  have h := (borrowerSummaries_correct [summaryRecordA, summaryRecordB]).2.2.2.2.2.1
    summaryKey summaryExpected (by decide)
  obtain ⟨c0, rest, hcs, hname, hcount, hborrowed, hrest⟩ := h
  exact ⟨hcount, hborrowed⟩

end DebtMate
